import Mathlib

/-!
Verification of the enrichment pipeline of `process_lesson.py`
(vocabulations repository).

The shallow embedding below translates the pure content of the script:

* `EnrichedRecord` / `CsvRow` — the nine-field record produced by the
  response validator and the nine-column row of the output store.
* `VocabCSVWriter` — the deduplicating writer: its in-memory key set and
  counters; the output store file is threaded explicitly as
  `Option (List CsvRow)` (`none` = file absent).
* `makeBatches` — the index-based batch slicing of `main`.
* `processOneBatch` / `processOneLesson` / `runMain` — the orchestration
  loop of `main`, with the completion client abstracted as an oracle
  function and the per-lesson files as an association list.
* `parse_lesson_arg` — the lesson-range expander, over an executable
  model of Python `str.zfill`, `int()` and `range()`.
* `load_schema` / `create_batch_prompt_template` — schema loading over an
  abstract JSON document model.
* `ensure_header` — the byte-level model of `_ensure_header`.
-/

/-- The enriched record produced for one vocabulary item
(the nine keys demanded from the completion service; absent keys are read
with empty-string defaults, so fields are total). -/
structure EnrichedRecord where
  kanji : String
  reading : String
  english : String
  pos : String
  polite : String
  te_form : String
  negative : String
  past : String
  notes : String
deriving DecidableEq, Repr

/-- One row of the output store `vocab.csv` (the nine columns of
`VocabCSVWriter.FIELDNAMES`). -/
structure CsvRow where
  kanjiCol : String
  readingCol : String
  englishCol : String
  posCol : String
  politeCol : String
  teFormCol : String
  negativeCol : String
  pastCol : String
  notesCol : String
deriving DecidableEq, Repr

/-- Deduplication key of a response entry: `(entry.get("kanji",""), entry.get("reading",""))`. -/
def entryKey (e : EnrichedRecord) : String × String := (e.kanji, e.reading)

/-- Deduplication key of a stored row: `(row.get("Kanji",""), row.get("Reading (Kana)",""))`. -/
def rowKey (r : CsvRow) : String × String := (r.kanjiCol, r.readingCol)

/-- The row written for an entry in `write_entries` (field-by-field copy). -/
def entryToRow (e : EnrichedRecord) : CsvRow :=
  { kanjiCol := e.kanji, readingCol := e.reading, englishCol := e.english,
    posCol := e.pos, politeCol := e.polite, teFormCol := e.te_form,
    negativeCol := e.negative, pastCol := e.past, notesCol := e.notes }

/-- In-memory state of `VocabCSVWriter`: the seen-key set (modelled as a
list queried by membership) and the two counters. The output store itself
is threaded separately. -/
structure VocabCSVWriter where
  existing_entries : List (String × String)
  added_count : Nat
  skipped_count : Nat
deriving DecidableEq, Repr

/-- Model of `_ensure_header` at row granularity: an absent file is
created holding no data rows; an existing file is left as is. -/
def ensureHeaderRows (file : Option (List CsvRow)) : Option (List CsvRow) :=
  match file with
  | none => some []
  | some rows => some rows

/-- `VocabCSVWriter.__init__`: `_ensure_header` then `_load_existing`
(each stored row's key enters `existing_entries`); both counters start at
zero. Returns the writer together with the file after header creation. -/
def VocabCSVWriter.construct (file : Option (List CsvRow)) :
    VocabCSVWriter × Option (List CsvRow) :=
  let file2 := ensureHeaderRows file
  let rows := file2.getD []
  ({ existing_entries := rows.map rowKey, added_count := 0, skipped_count := 0 }, file2)

/-- One iteration of the `for entry in entries` loop of `write_entries`,
acting on the writer state and the rows of the (open) output file. -/
def writeEntry (st : VocabCSVWriter × List CsvRow) (entry : EnrichedRecord) :
    VocabCSVWriter × List CsvRow :=
  let key := entryKey entry
  if key ∈ st.1.existing_entries then
    ({ st.1 with skipped_count := st.1.skipped_count + 1 }, st.2)
  else
    ({ st.1 with existing_entries := key :: st.1.existing_entries,
                 added_count := st.1.added_count + 1 },
     st.2 ++ [entryToRow entry])

/-- `write_entries`: open the file in append mode (creating it when
absent) and run the entry loop. -/
def write_entries (w : VocabCSVWriter) (file : Option (List CsvRow))
    (entries : List EnrichedRecord) : VocabCSVWriter × Option (List CsvRow) :=
  let res := entries.foldl writeEntry (w, file.getD [])
  (res.1, some res.2)

/-- Folding `write_entries` over a list of batches, as the orchestrator
does with one batch result after another. -/
def writeBatchesFile (st : VocabCSVWriter × Option (List CsvRow))
    (batches : List (List EnrichedRecord)) : VocabCSVWriter × Option (List CsvRow) :=
  batches.foldl (fun p es => write_entries p.1 p.2 es) st

/-- Same fold with the file kept unwrapped (the form the proofs use). -/
def writeBatchesRows (st : VocabCSVWriter × List CsvRow)
    (batches : List (List EnrichedRecord)) : VocabCSVWriter × List CsvRow :=
  batches.foldl (fun p es => es.foldl writeEntry p) st

/-! Basic lemmas about the entry loop of `write_entries`. -/

/-- The seen-key set only grows across one entry step. -/
theorem writeEntry_existing_mono (st : VocabCSVWriter × List CsvRow) (e : EnrichedRecord) :
    ∀ k, k ∈ st.1.existing_entries → k ∈ (writeEntry st e).1.existing_entries := by
  intro k hk
  unfold writeEntry
  by_cases h : entryKey e ∈ st.1.existing_entries <;> simp [h, hk]

/-- After processing an entry, its key is in the seen-key set. -/
theorem writeEntry_key_mem (st : VocabCSVWriter × List CsvRow) (e : EnrichedRecord) :
    entryKey e ∈ (writeEntry st e).1.existing_entries := by
  unfold writeEntry
  by_cases h : entryKey e ∈ st.1.existing_entries <;> simp [h]

/-- One entry step only appends to the file rows. -/
theorem writeEntry_rows_append (st : VocabCSVWriter × List CsvRow) (e : EnrichedRecord) :
    ∃ t, (writeEntry st e).2 = st.2 ++ t := by
  unfold writeEntry
  by_cases h : entryKey e ∈ st.1.existing_entries
  · exact ⟨[], by simp [h]⟩
  · exact ⟨[entryToRow e], by simp [h]⟩

/-- The key of the row written for an entry is the entry's key. -/
theorem rowKey_entryToRow (e : EnrichedRecord) : rowKey (entryToRow e) = entryKey e := rfl

/-- The key-set/store coherence invariant of the writer: the in-memory
seen-key set holds exactly the keys of the stored rows. -/
def KeysCoherent (st : VocabCSVWriter × List CsvRow) : Prop :=
  ∀ k, k ∈ st.1.existing_entries ↔ k ∈ st.2.map rowKey

/-- One entry step preserves key-set/store coherence. -/
theorem writeEntry_coherent (st : VocabCSVWriter × List CsvRow) (e : EnrichedRecord)
    (h : KeysCoherent st) : KeysCoherent (writeEntry st e) := by
  intro k
  unfold writeEntry
  by_cases hm : entryKey e ∈ st.1.existing_entries
  · simpa [hm] using h k
  · simp only [hm, if_false, List.map_append, List.map_cons, List.map_nil,
      List.mem_append, List.mem_cons, List.mem_singleton, rowKey_entryToRow]
    constructor
    · rintro (rfl | hk)
      · exact Or.inr (Or.inl rfl)
      · exact Or.inl ((h k).mp hk)
    · rintro (hk | (rfl | hk))
      · exact Or.inr ((h k).mpr hk)
      · exact Or.inl rfl
      · exact absurd hk (by simp)

/-- One entry step preserves distinctness of the stored keys, given
coherence. -/
theorem writeEntry_nodup (st : VocabCSVWriter × List CsvRow) (e : EnrichedRecord)
    (hc : KeysCoherent st) (hn : (st.2.map rowKey).Nodup) :
    ((writeEntry st e).2.map rowKey).Nodup := by
  unfold writeEntry
  by_cases hm : entryKey e ∈ st.1.existing_entries
  · simpa [hm] using hn
  · have hnot : entryKey e ∉ st.2.map rowKey := fun h => hm ((hc _).mpr h)
    simp only [hm, if_false, List.map_append, List.map_cons, List.map_nil,
      rowKey_entryToRow, List.nodup_append]
    exact ⟨hn, List.nodup_singleton _, by
      intro a ha hb
      simp only [List.mem_cons, List.not_mem_nil, or_false] at hb
      subst hb
      exact hnot ha⟩

/-- If an entry's key is already seen, the step only bumps the skip
counter. -/
theorem writeEntry_skip (st : VocabCSVWriter × List CsvRow) (e : EnrichedRecord)
    (h : entryKey e ∈ st.1.existing_entries) :
    writeEntry st e = ({ st.1 with skipped_count := st.1.skipped_count + 1 }, st.2) := by
  unfold writeEntry
  simp [h]

/-! The same facts, lifted over a whole entry list. -/

/-- Over an entry list the seen-key set only grows. -/
theorem foldl_writeEntry_existing_mono (es : List EnrichedRecord) :
    ∀ st : VocabCSVWriter × List CsvRow, ∀ k, k ∈ st.1.existing_entries →
      k ∈ (es.foldl writeEntry st).1.existing_entries := by
  induction es with
  | nil => intro st k hk; simpa using hk
  | cons e rest ih =>
    intro st k hk
    simpa using ih (writeEntry st e) k (writeEntry_existing_mono st e k hk)

/-- After an entry list is processed, every entry's key is seen. -/
theorem foldl_writeEntry_key_mem (es : List EnrichedRecord) :
    ∀ st : VocabCSVWriter × List CsvRow, ∀ e ∈ es,
      entryKey e ∈ (es.foldl writeEntry st).1.existing_entries := by
  induction es with
  | nil => intro st e he; simp at he
  | cons a rest ih =>
    intro st e he
    rcases List.mem_cons.mp he with rfl | hmem
    · simpa using foldl_writeEntry_existing_mono rest (writeEntry st e) _
        (writeEntry_key_mem st e)
    · simpa using ih (writeEntry st a) e hmem

/-- Over an entry list the file rows are only appended to. -/
theorem foldl_writeEntry_rows_append (es : List EnrichedRecord) :
    ∀ st : VocabCSVWriter × List CsvRow, ∃ t, (es.foldl writeEntry st).2 = st.2 ++ t := by
  induction es with
  | nil => intro st; exact ⟨[], by simp⟩
  | cons e rest ih =>
    intro st
    obtain ⟨t₁, h₁⟩ := writeEntry_rows_append st e
    obtain ⟨t₂, h₂⟩ := ih (writeEntry st e)
    exact ⟨t₁ ++ t₂, by simp [h₂, h₁]⟩

/-- Coherence is preserved over an entry list. -/
theorem foldl_writeEntry_coherent (es : List EnrichedRecord) :
    ∀ st : VocabCSVWriter × List CsvRow, KeysCoherent st →
      KeysCoherent (es.foldl writeEntry st) := by
  induction es with
  | nil => intro st h; simpa using h
  | cons e rest ih =>
    intro st h
    simpa using ih (writeEntry st e) (writeEntry_coherent st e h)

/-- Distinctness of stored keys is preserved over an entry list. -/
theorem foldl_writeEntry_nodup (es : List EnrichedRecord) :
    ∀ st : VocabCSVWriter × List CsvRow, KeysCoherent st → (st.2.map rowKey).Nodup →
      ((es.foldl writeEntry st).2.map rowKey).Nodup := by
  induction es with
  | nil => intro st _ hn; simpa using hn
  | cons e rest ih =>
    intro st hc hn
    simpa using ih (writeEntry st e) (writeEntry_coherent st e hc)
      (writeEntry_nodup st e hc hn)

/-- If every entry's key is already seen, the whole list is skipped: only
the skip counter moves. -/
theorem foldl_writeEntry_skip_all (es : List EnrichedRecord) :
    ∀ st : VocabCSVWriter × List CsvRow, (∀ e ∈ es, entryKey e ∈ st.1.existing_entries) →
      es.foldl writeEntry st =
        ({ st.1 with skipped_count := st.1.skipped_count + es.length }, st.2) := by
  induction es with
  | nil => intro st _; simp
  | cons e rest ih =>
    intro st h
    have he : entryKey e ∈ st.1.existing_entries := h e (by simp)
    have hstep := writeEntry_skip st e he
    have hres := ih ({ st.1 with skipped_count := st.1.skipped_count + 1 }, st.2)
      (by intro x hx; simpa using h x (List.mem_cons_of_mem e hx))
    calc (e :: rest).foldl writeEntry st
        = rest.foldl writeEntry (writeEntry st e) := by simp
      _ = rest.foldl writeEntry
            ({ st.1 with skipped_count := st.1.skipped_count + 1 }, st.2) := by rw [hstep]
      _ = _ := by
            rw [hres]
            simp [Nat.add_assoc, Nat.add_comm 1 rest.length]

/-! Lifting to whole batch sequences. -/

/-- With the file present, the option-level batch fold agrees with the
unwrapped fold. -/
theorem writeBatchesFile_eq_rows (batches : List (List EnrichedRecord)) :
    ∀ (w : VocabCSVWriter) (rs : List CsvRow),
      writeBatchesFile (w, some rs) batches =
        ((writeBatchesRows (w, rs) batches).1, some (writeBatchesRows (w, rs) batches).2) := by
  induction batches with
  | nil => intro w rs; rfl
  | cons es rest ih =>
    intro w rs
    have h1 : writeBatchesFile (w, some rs) (es :: rest) =
        writeBatchesFile (write_entries w (some rs) es) rest := by
      simp [writeBatchesFile]
    have h2 : write_entries w (some rs) es =
        ((es.foldl writeEntry (w, rs)).1, some (es.foldl writeEntry (w, rs)).2) := rfl
    have h3 : writeBatchesRows (w, rs) (es :: rest) =
        writeBatchesRows (es.foldl writeEntry (w, rs)) rest := by
      simp [writeBatchesRows]
    rw [h1, h2, h3, ih]

/-- Across batches the seen-key set only grows. -/
theorem writeBatchesRows_existing_mono (batches : List (List EnrichedRecord)) :
    ∀ st : VocabCSVWriter × List CsvRow, ∀ k, k ∈ st.1.existing_entries →
      k ∈ (writeBatchesRows st batches).1.existing_entries := by
  induction batches with
  | nil => intro st k hk; simpa [writeBatchesRows] using hk
  | cons es rest ih =>
    intro st k hk
    have h3 : writeBatchesRows st (es :: rest) =
        writeBatchesRows (es.foldl writeEntry st) rest := by simp [writeBatchesRows]
    rw [h3]
    exact ih _ k (foldl_writeEntry_existing_mono es st k hk)

/-- After all batches, every processed entry's key is seen. -/
theorem writeBatchesRows_key_mem (batches : List (List EnrichedRecord)) :
    ∀ st : VocabCSVWriter × List CsvRow, ∀ es ∈ batches, ∀ e ∈ es,
      entryKey e ∈ (writeBatchesRows st batches).1.existing_entries := by
  induction batches with
  | nil => intro st es hes; simp at hes
  | cons b rest ih =>
    intro st es hes e he
    have h3 : writeBatchesRows st (b :: rest) =
        writeBatchesRows (b.foldl writeEntry st) rest := by simp [writeBatchesRows]
    rw [h3]
    rcases List.mem_cons.mp hes with rfl | hmem
    · exact writeBatchesRows_existing_mono rest _ _ (foldl_writeEntry_key_mem es st e he)
    · exact ih _ es hmem e he

/-- Across batches the file rows are only appended to. -/
theorem writeBatchesRows_rows_append (batches : List (List EnrichedRecord)) :
    ∀ st : VocabCSVWriter × List CsvRow, ∃ t, (writeBatchesRows st batches).2 = st.2 ++ t := by
  induction batches with
  | nil => intro st; exact ⟨[], by simp [writeBatchesRows]⟩
  | cons es rest ih =>
    intro st
    have h3 : writeBatchesRows st (es :: rest) =
        writeBatchesRows (es.foldl writeEntry st) rest := by simp [writeBatchesRows]
    obtain ⟨t₁, h₁⟩ := foldl_writeEntry_rows_append es st
    obtain ⟨t₂, h₂⟩ := ih (es.foldl writeEntry st)
    exact ⟨t₁ ++ t₂, by rw [h3, h₂, h₁, List.append_assoc]⟩

/-- Coherence is preserved across batches. -/
theorem writeBatchesRows_coherent (batches : List (List EnrichedRecord)) :
    ∀ st : VocabCSVWriter × List CsvRow, KeysCoherent st →
      KeysCoherent (writeBatchesRows st batches) := by
  induction batches with
  | nil => intro st h; simpa [writeBatchesRows] using h
  | cons es rest ih =>
    intro st h
    have h3 : writeBatchesRows st (es :: rest) =
        writeBatchesRows (es.foldl writeEntry st) rest := by simp [writeBatchesRows]
    rw [h3]
    exact ih _ (foldl_writeEntry_coherent es st h)

/-- Distinctness of stored keys is preserved across batches. -/
theorem writeBatchesRows_nodup (batches : List (List EnrichedRecord)) :
    ∀ st : VocabCSVWriter × List CsvRow, KeysCoherent st → (st.2.map rowKey).Nodup →
      ((writeBatchesRows st batches).2.map rowKey).Nodup := by
  induction batches with
  | nil => intro st _ hn; simpa [writeBatchesRows] using hn
  | cons es rest ih =>
    intro st hc hn
    have h3 : writeBatchesRows st (es :: rest) =
        writeBatchesRows (es.foldl writeEntry st) rest := by simp [writeBatchesRows]
    rw [h3]
    exact ih _ (foldl_writeEntry_coherent es st hc) (foldl_writeEntry_nodup es st hc hn)

/-- If every entry of every batch has a seen key, all batches are
skipped: only the skip counter moves, by the total entry count. -/
theorem writeBatchesRows_skip_all (batches : List (List EnrichedRecord)) :
    ∀ st : VocabCSVWriter × List CsvRow,
      (∀ es ∈ batches, ∀ e ∈ es, entryKey e ∈ st.1.existing_entries) →
      writeBatchesRows st batches =
        ({ st.1 with skipped_count := st.1.skipped_count + (batches.map List.length).sum },
          st.2) := by
  induction batches with
  | nil => intro st _; simp [writeBatchesRows]
  | cons es rest ih =>
    intro st h
    have h3 : writeBatchesRows st (es :: rest) =
        writeBatchesRows (es.foldl writeEntry st) rest := by simp [writeBatchesRows]
    have hskip := foldl_writeEntry_skip_all es st (h es (by simp))
    have hres := ih ({ st.1 with skipped_count := st.1.skipped_count + es.length }, st.2)
      (by intro bs hbs e he; simpa using h bs (List.mem_cons_of_mem es hbs) e he)
    rw [h3, hskip, hres]
    simp [Nat.add_assoc]

/-- The writer state right after construction over a store with the
given rows. -/
def initWriter (rows : List CsvRow) : VocabCSVWriter :=
  { existing_entries := rows.map rowKey, added_count := 0, skipped_count := 0 }

/-- Constructing over a present store loads exactly its keys. -/
theorem construct_some (rows : List CsvRow) :
    VocabCSVWriter.construct (some rows) = (initWriter rows, some rows) := rfl

/-- The freshly constructed writer is coherent with its store. -/
theorem initWriter_coherent (rows : List CsvRow) : KeysCoherent (initWriter rows, rows) :=
  fun _ => Iff.rfl

/-- C1: starting from any store whose rows have pairwise-distinct
`(kanji, reading)` keys, after the writer is constructed and
`write_entries` is applied to any sequence of record batches, the
resulting store still has pairwise-distinct keys, and the original rows
are an unchanged initial segment of it (appended rows only follow). -/
theorem output_store_key_uniqueness (rows : List CsvRow)
    (batches : List (List EnrichedRecord)) (h : (rows.map rowKey).Nodup) :
    ∃ t, (writeBatchesFile (VocabCSVWriter.construct (some rows)) batches).2 =
        some (rows ++ t) ∧ ((rows ++ t).map rowKey).Nodup := by
  rw [construct_some, writeBatchesFile_eq_rows]
  obtain ⟨t, ht⟩ := writeBatchesRows_rows_append batches (initWriter rows, rows)
  refine ⟨t, by rw [ht], ?_⟩
  have hn := writeBatchesRows_nodup batches (initWriter rows, rows)
    (initWriter_coherent rows) h
  rwa [ht] at hn

/-- Sample record used by concrete witnesses. -/
def sampleEntry : EnrichedRecord :=
  { kanji := "食べる", reading := "たべる", english := "to eat", pos := "Ru-Verb (Trans)",
    polite := "食べます", te_form := "食べて", negative := "食べない", past := "食べた",
    notes := "" }

/-- Sample stored row used by concrete witnesses. -/
def sampleRow : CsvRow :=
  { kanjiCol := "行く", readingCol := "いく", englishCol := "to go", posCol := "U-Verb (Intrans)",
    politeCol := "行きます", teFormCol := "行って", negativeCol := "行かない", pastCol := "行った",
    notesCol := "" }

/-- C1 witness: the key-uniqueness theorem applied to a concrete
one-row store and one concrete batch. -/
theorem output_store_key_uniqueness_witness :
    (([sampleRow].map rowKey).Nodup) ∧
    (∃ t, (writeBatchesFile (VocabCSVWriter.construct (some [sampleRow]))
        [[sampleEntry]]).2 = some ([sampleRow] ++ t) ∧
      (([sampleRow] ++ t).map rowKey).Nodup) :=
  ⟨by decide, output_store_key_uniqueness [sampleRow] [[sampleEntry]] (by decide)⟩

/-- C2: writing a batch sequence through a freshly constructed writer,
then writing the same sequence again through another freshly constructed
writer over the resulting store, leaves the store unchanged; the second
run adds nothing and skips every entry as a duplicate. -/
theorem idempotent_merge (rows : List CsvRow) (batches : List (List EnrichedRecord)) :
    (writeBatchesFile (VocabCSVWriter.construct
        ((writeBatchesFile (VocabCSVWriter.construct (some rows)) batches).2)) batches).2 =
      (writeBatchesFile (VocabCSVWriter.construct (some rows)) batches).2 ∧
    (writeBatchesFile (VocabCSVWriter.construct
        ((writeBatchesFile (VocabCSVWriter.construct (some rows)) batches).2))
        batches).1.added_count = 0 ∧
    (writeBatchesFile (VocabCSVWriter.construct
        ((writeBatchesFile (VocabCSVWriter.construct (some rows)) batches).2))
        batches).1.skipped_count = (batches.map List.length).sum := by
  have hcoh := writeBatchesRows_coherent batches (initWriter rows, rows)
    (initWriter_coherent rows)
  have hkeys := writeBatchesRows_key_mem batches (initWriter rows, rows)
  rw [construct_some, writeBatchesFile_eq_rows, construct_some, writeBatchesFile_eq_rows]
  have hall : ∀ es ∈ batches, ∀ e ∈ es, entryKey e ∈
      (initWriter (writeBatchesRows (initWriter rows, rows) batches).2).existing_entries := by
    intro es hes e he
    exact (hcoh (entryKey e)).mp (hkeys es hes e he)
  have hskip := writeBatchesRows_skip_all batches
    (initWriter (writeBatchesRows (initWriter rows, rows) batches).2,
      (writeBatchesRows (initWriter rows, rows) batches).2) hall
  rw [hskip]
  simp [initWriter]

/-- C5 counterexample: a single `write_entries` call on a batch holding
the same record twice, against an empty store, appends the record only
once — the claim that both occurrences would be appended is false. -/
theorem within_batch_dedup_cex :
    (write_entries (VocabCSVWriter.construct (some [])).1 (some [])
        [sampleEntry, sampleEntry]).2 ≠
      some [entryToRow sampleEntry, entryToRow sampleEntry] ∧
    (write_entries (VocabCSVWriter.construct (some [])).1 (some [])
        [sampleEntry, sampleEntry]).2 = some [entryToRow sampleEntry] ∧
    (write_entries (VocabCSVWriter.construct (some [])).1 (some [])
        [sampleEntry, sampleEntry]).1.skipped_count = 1 := by
  refine ⟨by decide, by decide, by decide⟩

/-- C5 amended: within a single `write_entries` call, records are
deduplicated against the key set as it is updated during the call: an
entry whose key already occurred earlier in the same batch is skipped
(only the skip counter moves), even when that key was absent from the
store beforehand. -/
theorem within_batch_dedup (w : VocabCSVWriter) (file : Option (List CsvRow))
    (es : List EnrichedRecord) (e : EnrichedRecord)
    (h : entryKey e ∈ es.map entryKey) :
    write_entries w file (es ++ [e]) =
      ({ (write_entries w file es).1 with
          skipped_count := (write_entries w file es).1.skipped_count + 1 },
        (write_entries w file es).2) := by
  obtain ⟨x, hx, hkey⟩ := List.mem_map.mp h
  have hmem : entryKey e ∈ (es.foldl writeEntry (w, file.getD [])).1.existing_entries := by
    rw [← hkey]
    exact foldl_writeEntry_key_mem es (w, file.getD []) x hx
  unfold write_entries
  rw [List.foldl_append]
  simp only [List.foldl_cons, List.foldl_nil]
  rw [writeEntry_skip _ e hmem]

/-- C5 amended witness: the within-batch deduplication theorem applied
at a concrete batch. -/
theorem within_batch_dedup_witness :
    entryKey sampleEntry ∈ [sampleEntry].map entryKey ∧
    write_entries (initWriter []) (some []) ([sampleEntry] ++ [sampleEntry]) =
      ({ (write_entries (initWriter []) (some []) [sampleEntry]).1 with
          skipped_count :=
            (write_entries (initWriter []) (some []) [sampleEntry]).1.skipped_count + 1 },
        (write_entries (initWriter []) (some []) [sampleEntry]).2) :=
  ⟨by decide, within_batch_dedup (initWriter []) (some []) [sampleEntry] sampleEntry
    (by decide)⟩

/-! Batch slicing of `main`. -/

/-- The batch slicing of `main`: `total_batches = (n + batch_size - 1) // batch_size`
batches, batch `i` being `vocab_items[i*batch_size : min(i*batch_size + batch_size, n)]`. -/
def makeBatches {α : Type} (batch_size : Nat) (items : List α) : List (List α) :=
  let total_batches := (items.length + batch_size - 1) / batch_size
  (List.range total_batches).map (fun batch_num =>
    let start_idx := batch_num * batch_size
    let end_idx := min (start_idx + batch_size) items.length
    (items.drop start_idx).take (end_idx - start_idx))

/-- Slicing the empty list yields no batches. -/
theorem makeBatches_nil {α : Type} (b : Nat) : makeBatches b ([] : List α) = [] := by
  have h0 : (b - 1) / b = 0 := by
    rcases Nat.eq_zero_or_pos b with rfl | hb
    · simp
    · exact Nat.div_eq_of_lt (show b - 1 < b by omega)
  simp [makeBatches, h0]

/-- Unfolding step of the slicing: a nonempty list yields its first
`batch_size` items as the head batch, followed by the slicing of the
rest. -/
theorem makeBatches_cons {α : Type} (b : Nat) (items : List α) (hb : 0 < b)
    (hi : items ≠ []) :
    makeBatches b items = items.take b :: makeBatches b (items.drop b) := by
  have hn : 0 < items.length := List.length_pos.mpr hi
  have hlen_drop : (items.drop b).length = items.length - b := by simp
  have htot : (items.length + b - 1) / b = ((items.drop b).length + b - 1) / b + 1 := by
    rw [hlen_drop]
    rcases Nat.lt_or_ge b items.length with hlt | hge
    · have h1 : items.length + b - 1 = (items.length - b + b - 1) + b := by omega
      rw [h1, Nat.add_div_right _ hb]
    · have h3 : items.length + b - 1 = (items.length - 1) + b := by omega
      have h4 : items.length - b + b - 1 = b - 1 := by omega
      rw [h3, Nat.add_div_right _ hb, h4,
        Nat.div_eq_of_lt (show items.length - 1 < b by omega),
        Nat.div_eq_of_lt (show b - 1 < b by omega)]
  simp only [makeBatches]
  rw [htot, List.range_succ_eq_map, List.map_cons, List.map_map]
  congr 1
  · simp only [Nat.zero_mul, List.drop_zero, Nat.zero_add, Nat.sub_zero]
    rcases le_or_lt b items.length with hle | hlt
    · rw [Nat.min_eq_left hle]
    · rw [Nat.min_eq_right (Nat.le_of_lt hlt), List.take_length,
        List.take_of_length_le (Nat.le_of_lt hlt)]
  · apply List.map_congr_left
    intro i hi2
    have hmem : i < ((items.drop b).length + b - 1) / b := List.mem_range.mp hi2
    have hok : 0 < ((items.drop b).length + b - 1) / b :=
      Nat.lt_of_le_of_lt (Nat.zero_le i) hmem
    have hnb : b < items.length := by
      by_contra hc
      have h4 : (items.drop b).length + b - 1 = b - 1 := by rw [hlen_drop]; omega
      rw [h4, Nat.div_eq_of_lt (show b - 1 < b by omega)] at hok
      exact Nat.lt_irrefl 0 hok
    simp only [Function.comp, Function.comp_apply, Nat.succ_eq_add_one]
    have hdd : items.drop ((i + 1) * b) = (items.drop b).drop (i * b) := by
      rw [List.drop_drop]
      congr 1
      ring
    rw [hdd, hlen_drop]
    congr 1
    have hx : (i + 1) * b = i * b + b := by ring
    rw [hx]
    generalize i * b = x
    omega

/-- All batches concatenate back to the original items (bounded
induction on the length). -/
theorem makeBatches_flatten_aux {α : Type} (b : Nat) (hb : 0 < b) :
    ∀ (n : Nat) (items : List α), items.length ≤ n → (makeBatches b items).flatten = items := by
  intro n
  induction n with
  | zero =>
    intro items h
    have h0 : items = [] := List.length_eq_zero.mp (Nat.le_zero.mp h)
    subst h0
    simp [makeBatches_nil]
  | succ n ih =>
    intro items h
    rcases eq_or_ne items [] with rfl | hne
    · simp [makeBatches_nil]
    · rw [makeBatches_cons b items hb hne]
      have hlt : (items.drop b).length ≤ n := by
        have h1 : 0 < items.length := List.length_pos.mpr hne
        simp only [List.length_drop]
        omega
      show items.take b ++ (makeBatches b (items.drop b)).flatten = items
      rw [ih (items.drop b) hlt]
      exact List.take_append_drop b items

/-- Batch count is the ceiling of items over batch size (by definition
of the slicing). -/
theorem makeBatches_length {α : Type} (b : Nat) (items : List α) :
    (makeBatches b items).length = (items.length + b - 1) / b := by
  simp [makeBatches]

/-- Every batch is nonempty and no larger than the batch size. -/
theorem makeBatches_sizes_aux {α : Type} (b : Nat) (hb : 0 < b) :
    ∀ (n : Nat) (items : List α), items.length ≤ n →
      ∀ batch ∈ makeBatches b items, 0 < batch.length ∧ batch.length ≤ b := by
  intro n
  induction n with
  | zero =>
    intro items h batch hmem
    have h0 : items = [] := List.length_eq_zero.mp (Nat.le_zero.mp h)
    subst h0
    rw [makeBatches_nil] at hmem
    simp at hmem
  | succ n ih =>
    intro items h batch hmem
    rcases eq_or_ne items [] with rfl | hne
    · rw [makeBatches_nil] at hmem
      simp at hmem
    · rw [makeBatches_cons b items hb hne] at hmem
      rcases List.mem_cons.mp hmem with rfl | hmem2
      · have h1 : 0 < items.length := List.length_pos.mpr hne
        simp only [List.length_take]
        omega
      · have hlt : (items.drop b).length ≤ n := by
          have h1 : 0 < items.length := List.length_pos.mpr hne
          simp only [List.length_drop]
          omega
        exact ih (items.drop b) hlt batch hmem2

/-- Every batch except possibly the last has exactly the batch size. -/
theorem makeBatches_dropLast_aux {α : Type} (b : Nat) (hb : 0 < b) :
    ∀ (n : Nat) (items : List α), items.length ≤ n →
      ∀ batch ∈ (makeBatches b items).dropLast, batch.length = b := by
  intro n
  induction n with
  | zero =>
    intro items h batch hmem
    have h0 : items = [] := List.length_eq_zero.mp (Nat.le_zero.mp h)
    subst h0
    rw [makeBatches_nil] at hmem
    simp at hmem
  | succ n ih =>
    intro items h batch hmem
    rcases eq_or_ne items [] with rfl | hne
    · rw [makeBatches_nil] at hmem
      simp at hmem
    · rw [makeBatches_cons b items hb hne] at hmem
      rcases eq_or_ne (items.drop b) [] with hdrop | hdrop
    -- fewer than batch_size items remain: a single final batch
      · rw [hdrop, makeBatches_nil] at hmem
        simp at hmem
      · have hblt : b < items.length := by
          have h2 : (items.drop b).length = items.length - b := by simp
          have h3 : 0 < (items.drop b).length := List.length_pos.mpr hdrop
          omega
        rw [makeBatches_cons b (items.drop b) hb hdrop] at hmem
        simp only [List.dropLast_cons₂, List.mem_cons] at hmem
        rcases hmem with rfl | hmem2
        · simp only [List.length_take]
          omega
        · have hlt : (items.drop b).length ≤ n := by
            have h1 : 0 < items.length := List.length_pos.mpr hne
            simp only [List.length_drop]
            omega
          apply ih (items.drop b) hlt batch
          rw [makeBatches_cons b (items.drop b) hb hdrop]
          rcases eq_or_ne (makeBatches b ((items.drop b).drop b)) [] with hmb | hmb
          · rw [hmb] at hmem2
            simp at hmem2
          · simpa [List.dropLast_cons₂] using hmem2

/-- C8: for every item list and positive batch size, the slicing of
`main` produces ceil(n/b) batches that concatenate back to the original
list in order (covering every item exactly once), each batch nonempty
and at most the batch size, and every batch except possibly the last of
exactly the batch size. -/
theorem batch_partitioning {α : Type} (items : List α) (b : Nat) (hb : 0 < b) :
    (makeBatches b items).flatten = items ∧
    (makeBatches b items).length = (items.length + b - 1) / b ∧
    (∀ batch ∈ (makeBatches b items).dropLast, batch.length = b) ∧
    (∀ batch ∈ makeBatches b items, 0 < batch.length ∧ batch.length ≤ b) :=
  ⟨makeBatches_flatten_aux b hb items.length items (Nat.le_refl _),
   makeBatches_length b items,
   makeBatches_dropLast_aux b hb items.length items (Nat.le_refl _),
   makeBatches_sizes_aux b hb items.length items (Nat.le_refl _)⟩

/-- C8 witness: the partitioning theorem at 45 items and batch size 20,
where the batch sizes come out as 20, 20 and 5. -/
theorem batch_partitioning_witness :
    0 < 20 ∧
    (makeBatches 20 (List.range 45)).map List.length = [20, 20, 5] ∧
    ((makeBatches 20 (List.range 45)).flatten = List.range 45 ∧
     (makeBatches 20 (List.range 45)).length = ((List.range 45).length + 20 - 1) / 20 ∧
     (∀ batch ∈ (makeBatches 20 (List.range 45)).dropLast, batch.length = 20) ∧
     (∀ batch ∈ makeBatches 20 (List.range 45), 0 < batch.length ∧ batch.length ≤ 20)) :=
  ⟨by decide, by decide, batch_partitioning (List.range 45) 20 (by decide)⟩

/-! The orchestration loop of `main`. -/

/-- A raw vocabulary row of a per-lesson CSV file (fields as extracted
in `process_vocab_batch`; missing keys default to empty strings, so
fields are total). -/
structure RawVocabRecord where
  word_kana : String
  kanji_form : String
  pos_japanese : String
  english : String
deriving DecidableEq, Repr

/-- The recoverable per-lesson failure of `load_lesson_vocab`. -/
inductive LessonError where
  | lessonNotFound (lesson_num : String)
deriving DecidableEq, Repr

/-- `load_lesson_vocab`: look up the per-lesson file; absent file raises
the lesson-not-found error, otherwise the rows are returned in order.
The file system is modelled as an association list from lesson id to row
list. -/
def load_lesson_vocab (files : List (String × List RawVocabRecord)) (lesson_num : String) :
    Except LessonError (List RawVocabRecord) :=
  match files.lookup lesson_num with
  | none => Except.error (LessonError.lessonNotFound lesson_num)
  | some rows => Except.ok rows

/-- The mutable state of `main`'s loop: the writer (absent in dry-run),
the output file, and the two run counters. -/
structure LoopState where
  csv_writer : Option VocabCSVWriter
  output_file : Option (List CsvRow)
  grand_total_processed : Nat
  grand_total_items : Nat
deriving Repr

/-- One iteration of the per-batch loop of `main`: invoke the completion
chain (abstracted as `oracle`); any raised error is caught and the loop
continues; on success the processed counter grows by the result length
and, outside dry-run, the results go through `write_entries`. -/
def processOneBatch (oracle : List RawVocabRecord → Except String (List EnrichedRecord))
    (dry_run : Bool) (st : LoopState) (batch : List RawVocabRecord) : LoopState :=
  match oracle batch with
  | Except.error _ => st
  | Except.ok results =>
    let st2 := { st with grand_total_processed := st.grand_total_processed + results.length }
    if dry_run then st2
    else
      match st2.csv_writer with
      | none => st2
      | some w =>
        let res := write_entries w st2.output_file results
        { st2 with csv_writer := some res.1, output_file := res.2 }

/-- One iteration of the per-lesson loop of `main`: a missing lesson
file is caught and skipped; otherwise the item counter grows by the
lesson size and the lesson's batches are processed in order. -/
def processOneLesson (files : List (String × List RawVocabRecord))
    (oracle : List RawVocabRecord → Except String (List EnrichedRecord))
    (batch_size : Nat) (dry_run : Bool) (st : LoopState) (lesson_num : String) : LoopState :=
  match load_lesson_vocab files lesson_num with
  | Except.error _ => st
  | Except.ok vocab_items =>
    let st2 := { st with grand_total_items := st.grand_total_items + vocab_items.length }
    (makeBatches batch_size vocab_items).foldl (processOneBatch oracle dry_run) st2

/-- The body of `main` after argument parsing: construct the writer
unless dry-run, then fold the per-lesson loop over the expanded lesson
ids. -/
def runMain (files : List (String × List RawVocabRecord))
    (oracle : List RawVocabRecord → Except String (List EnrichedRecord))
    (batch_size : Nat) (dry_run : Bool) (lesson_nums : List String)
    (file : Option (List CsvRow)) : LoopState :=
  let st0 : LoopState :=
    if dry_run then
      { csv_writer := none, output_file := file,
        grand_total_processed := 0, grand_total_items := 0 }
    else
      { csv_writer := some (VocabCSVWriter.construct file).1,
        output_file := (VocabCSVWriter.construct file).2,
        grand_total_processed := 0, grand_total_items := 0 }
  lesson_nums.foldl (processOneLesson files oracle batch_size dry_run) st0

/-- Length of a batch's successful result, zero for a failed batch. -/
def okLength (oracle : List RawVocabRecord → Except String (List EnrichedRecord))
    (batch : List RawVocabRecord) : Nat :=
  match oracle batch with
  | Except.ok results => results.length
  | Except.error _ => 0

/-- The processed counter after a batch sequence grows by exactly the
sum of the successful results' lengths. -/
theorem foldl_processOneBatch_processed
    (oracle : List RawVocabRecord → Except String (List EnrichedRecord)) (dry_run : Bool) :
    ∀ (batches : List (List RawVocabRecord)) (st : LoopState),
      (batches.foldl (processOneBatch oracle dry_run) st).grand_total_processed =
        st.grand_total_processed + (batches.map (okLength oracle)).sum := by
  intro batches
  induction batches with
  | nil => intro st; simp
  | cons batch rest ih =>
    intro st
    have hstep : (processOneBatch oracle dry_run st batch).grand_total_processed =
        st.grand_total_processed + okLength oracle batch := by
      unfold processOneBatch okLength
      cases h : oracle batch with
      | error msg => simp
      | ok results =>
        cases dry_run with
        | true => simp
        | false =>
          cases st.csv_writer with
          | none => simp
          | some w => simp
    calc ((batch :: rest).foldl (processOneBatch oracle dry_run) st).grand_total_processed
        = (rest.foldl (processOneBatch oracle dry_run)
            (processOneBatch oracle dry_run st batch)).grand_total_processed := by simp
      _ = (processOneBatch oracle dry_run st batch).grand_total_processed +
            (rest.map (okLength oracle)).sum := ih _
      _ = st.grand_total_processed + ((batch :: rest).map (okLength oracle)).sum := by
            rw [hstep]
            simp [Nat.add_assoc]

/-- A failing batch leaves the loop state untouched. -/
theorem processOneBatch_error
    (oracle : List RawVocabRecord → Except String (List EnrichedRecord)) (dry_run : Bool)
    (st : LoopState) (batch : List RawVocabRecord) (msg : String)
    (h : oracle batch = Except.error msg) :
    processOneBatch oracle dry_run st batch = st := by
  unfold processOneBatch
  rw [h]

/-- C3: if one batch in a sequence raises, the exception is caught and
the run proceeds exactly as if the remaining batches alone were
processed — the failing batch has no effect on the state — and the
processed counter ends at the initial value plus the sum of the result
lengths of exactly the successful batches. -/
theorem batch_failure_isolation
    (oracle : List RawVocabRecord → Except String (List EnrichedRecord)) (dry_run : Bool)
    (st : LoopState) (pre post : List (List RawVocabRecord)) (bad : List RawVocabRecord)
    (msg : String) (h : oracle bad = Except.error msg) :
    (pre ++ bad :: post).foldl (processOneBatch oracle dry_run) st =
      (pre ++ post).foldl (processOneBatch oracle dry_run) st ∧
    ((pre ++ bad :: post).foldl (processOneBatch oracle dry_run) st).grand_total_processed =
      st.grand_total_processed + ((pre ++ post).map (okLength oracle)).sum := by
  have heq : (pre ++ bad :: post).foldl (processOneBatch oracle dry_run) st =
      (pre ++ post).foldl (processOneBatch oracle dry_run) st := by
    rw [List.foldl_append, List.foldl_append, List.foldl_cons,
      processOneBatch_error oracle dry_run _ bad msg h]
  refine ⟨heq, ?_⟩
  rw [heq]
  exact foldl_processOneBatch_processed oracle dry_run (pre ++ post) st

/-- Oracle used by concrete witnesses: the empty batch fails, any other
batch succeeds with one sample entry. -/
def sampleOracle (batch : List RawVocabRecord) : Except String (List EnrichedRecord) :=
  if batch.isEmpty then Except.error "boom" else Except.ok [sampleEntry]

/-- Initial loop state used by concrete witnesses. -/
def sampleState : LoopState :=
  { csv_writer := some (initWriter []), output_file := some [],
    grand_total_processed := 0, grand_total_items := 0 }

/-- Sample raw row used by concrete witnesses. -/
def sampleRaw : RawVocabRecord :=
  { word_kana := "たべる", kanji_form := "食べる", pos_japanese := "v.", english := "to eat" }

/-- C3 witness: batch 2 of 3 fails; the failure-isolation theorem
applied there. -/
theorem batch_failure_isolation_witness :
    sampleOracle [] = Except.error "boom" ∧
    (([[sampleRaw]] ++ [] :: [[sampleRaw]]).foldl (processOneBatch sampleOracle false)
        sampleState =
      ([[sampleRaw]] ++ [[sampleRaw]]).foldl (processOneBatch sampleOracle false)
        sampleState ∧
    (([[sampleRaw]] ++ [] :: [[sampleRaw]]).foldl (processOneBatch sampleOracle false)
        sampleState).grand_total_processed =
      sampleState.grand_total_processed +
        (([[sampleRaw]] ++ [[sampleRaw]]).map (okLength sampleOracle)).sum) :=
  ⟨rfl, batch_failure_isolation sampleOracle false sampleState [[sampleRaw]] [[sampleRaw]]
    [] "boom" rfl⟩

/-- In dry-run mode a batch step never touches the writer slot or the
output file. -/
theorem processOneBatch_dry
    (oracle : List RawVocabRecord → Except String (List EnrichedRecord))
    (st : LoopState) (batch : List RawVocabRecord) :
    (processOneBatch oracle true st batch).output_file = st.output_file ∧
    (processOneBatch oracle true st batch).csv_writer = st.csv_writer := by
  unfold processOneBatch
  cases oracle batch <;> simp

/-- In dry-run mode a whole batch sequence never touches the writer
slot or the output file. -/
theorem foldl_processOneBatch_dry
    (oracle : List RawVocabRecord → Except String (List EnrichedRecord)) :
    ∀ (batches : List (List RawVocabRecord)) (st : LoopState),
      ((batches.foldl (processOneBatch oracle true) st).output_file = st.output_file ∧
       (batches.foldl (processOneBatch oracle true) st).csv_writer = st.csv_writer) := by
  intro batches
  induction batches with
  | nil => intro st; exact ⟨rfl, rfl⟩
  | cons batch rest ih =>
    intro st
    obtain ⟨h1, h2⟩ := ih (processOneBatch oracle true st batch)
    obtain ⟨g1, g2⟩ := processOneBatch_dry oracle st batch
    exact ⟨by simpa [h1] using g1, by simpa [h2] using g2⟩

/-- In dry-run mode a lesson step never touches the writer slot or the
output file. -/
theorem processOneLesson_dry (files : List (String × List RawVocabRecord))
    (oracle : List RawVocabRecord → Except String (List EnrichedRecord))
    (batch_size : Nat) (st : LoopState) (lesson_num : String) :
    (processOneLesson files oracle batch_size true st lesson_num).output_file =
        st.output_file ∧
    (processOneLesson files oracle batch_size true st lesson_num).csv_writer =
        st.csv_writer := by
  unfold processOneLesson
  cases load_lesson_vocab files lesson_num with
  | error e => exact ⟨rfl, rfl⟩
  | ok vocab_items =>
    exact (foldl_processOneBatch_dry oracle (makeBatches batch_size vocab_items) _)

/-- C6: with the dry-run flag set the writer is never constructed and
the output store is unchanged by the whole run, whatever the lesson
files, the completion outcomes, the batch size and the lesson list. -/
theorem dry_run_no_side_effects (files : List (String × List RawVocabRecord))
    (oracle : List RawVocabRecord → Except String (List EnrichedRecord))
    (batch_size : Nat) (lesson_nums : List String) (file : Option (List CsvRow)) :
    (runMain files oracle batch_size true lesson_nums file).output_file = file ∧
    (runMain files oracle batch_size true lesson_nums file).csv_writer = none := by
  have hfold : ∀ (lessons : List String) (st : LoopState),
      ((lessons.foldl (processOneLesson files oracle batch_size true) st).output_file =
          st.output_file ∧
       (lessons.foldl (processOneLesson files oracle batch_size true) st).csv_writer =
          st.csv_writer) := by
    intro lessons
    induction lessons with
    | nil => intro st; exact ⟨rfl, rfl⟩
    | cons lesson rest ih =>
      intro st
      obtain ⟨h1, h2⟩ := ih (processOneLesson files oracle batch_size true st lesson)
      obtain ⟨g1, g2⟩ := processOneLesson_dry files oracle batch_size st lesson
      exact ⟨by simpa [h1] using g1, by simpa [h2] using g2⟩
  exact hfold lesson_nums
    { csv_writer := none, output_file := file, grand_total_processed := 0, grand_total_items := 0 }

/-- C7: a lesson id whose per-lesson file is absent makes
`load_lesson_vocab` fail with the lesson-not-found error, and the run
over any lesson list containing it equals the run over the list with it
removed — the lesson is skipped and every other lesson is processed
normally, with no abort. -/
theorem missing_lesson_skip (files : List (String × List RawVocabRecord))
    (oracle : List RawVocabRecord → Except String (List EnrichedRecord))
    (batch_size : Nat) (dry_run : Bool) (file : Option (List CsvRow))
    (pre post : List String) (m : String) (h : files.lookup m = none) :
    load_lesson_vocab files m = Except.error (LessonError.lessonNotFound m) ∧
    runMain files oracle batch_size dry_run (pre ++ m :: post) file =
      runMain files oracle batch_size dry_run (pre ++ post) file := by
  have hload : load_lesson_vocab files m = Except.error (LessonError.lessonNotFound m) := by
    unfold load_lesson_vocab
    rw [h]
  refine ⟨hload, ?_⟩
  unfold runMain
  have hskip : ∀ st : LoopState,
      processOneLesson files oracle batch_size dry_run st m = st := by
    intro st
    unfold processOneLesson
    rw [hload]
  rw [List.foldl_append, List.foldl_append, List.foldl_cons, hskip]

/-- Lesson files used by the C7 witness: only lesson "01" exists. -/
def sampleFiles : List (String × List RawVocabRecord) := [("01", [sampleRaw])]

/-- C7 witness: requesting lessons "01" and "99" where "99" has no file
behaves exactly like requesting "01" alone. -/
theorem missing_lesson_skip_witness :
    sampleFiles.lookup "99" = none ∧
    (load_lesson_vocab sampleFiles "99" =
        Except.error (LessonError.lessonNotFound "99") ∧
      runMain sampleFiles sampleOracle 20 false (["01"] ++ "99" :: []) (some []) =
        runMain sampleFiles sampleOracle 20 false (["01"] ++ []) (some [])) :=
  ⟨by decide, missing_lesson_skip sampleFiles sampleOracle 20 false (some [])
    ["01"] [] "99" (by decide)⟩

/-! Byte-level model of `_ensure_header`. -/

/-- The header line written by `csv.DictWriter.writeheader` for the nine
`FIELDNAMES` (the csv module terminates lines with CR LF). -/
def headerLine : String :=
  "Kanji,Reading (Kana),English,Part of Speech,Polite (Masu-form),Te-form,Short Negative (Nai),Short Past (Ta),Usage/Notes\r\n"

/-- `_ensure_header` at byte granularity: the file's byte content before
(`none` = file absent) is mapped to the content after. When the file is
absent or has size zero it is (re)written to hold exactly the header;
otherwise it is not opened for writing. -/
def ensure_header (file : Option String) : String :=
  match file with
  | none => headerLine
  | some content => if content.length = 0 then headerLine else content

/-- C10: constructing the writer writes the fixed header when the
output store is absent and also when it exists with zero bytes, and
leaves a nonempty store byte-identical. -/
theorem ensure_header_spec :
    ensure_header none = headerLine ∧
    ensure_header (some "") = headerLine ∧
    (∀ s : String, s ≠ "" → ensure_header (some s) = s) := by
  refine ⟨rfl, rfl, ?_⟩
  intro s hs
  show (if s.length = 0 then headerLine else s) = s
  rw [if_neg]
  intro hlen
  refine hs ?_
  cases s with
  | mk data =>
    have hd : data = [] := List.length_eq_zero.mp hlen
    rw [hd]

/-- C10 witness: the header theorem applied to a concrete nonempty
store content. -/
theorem ensure_header_spec_witness :
    headerLine ≠ "" ∧ ensure_header (some headerLine) = headerLine :=
  ⟨by decide, ensure_header_spec.2.2 headerLine (by decide)⟩

/-! Schema loading. -/

/-- Abstract JSON value (the possible results of `json.load`). -/
inductive JsonDoc where
  | obj (fields : List (String × JsonDoc))
  | arr (items : List JsonDoc)
  | str (s : String)
  | num (n : Int)
  | boolVal (b : Bool)
  | nullVal

/-- The schema file as found on disk: either text `json.load` rejects,
or a parsed JSON document. -/
inductive RawSchemaFile where
  | malformed
  | parsed (doc : JsonDoc)

/-- Failure classes of schema loading: the file is absent
(`FileNotFoundError` from `open`), its text does not parse
(`json.JSONDecodeError`), the document is not an object (`TypeError`
when subscripting), or a required top-level key is absent (`KeyError`
in `create_batch_prompt_template`). -/
inductive SchemaError where
  | schemaNotFound
  | schemaParse
  | notAnObject
  | missingKey (k : String)
deriving DecidableEq, Repr

/-- `load_schema`: open the schema file and parse it. -/
def load_schema (file : Option RawSchemaFile) : Except SchemaError JsonDoc :=
  match file with
  | none => Except.error SchemaError.schemaNotFound
  | some RawSchemaFile.malformed => Except.error SchemaError.schemaParse
  | some (RawSchemaFile.parsed doc) => Except.ok doc

/-- The schema accesses of `create_batch_prompt_template`:
`schema["columns"]`, `schema["verb_exceptions"]`, `schema["irregular_verbs"]`,
in that order; the interpolated template carries the three values. -/
def create_batch_prompt_template (schema : JsonDoc) :
    Except SchemaError (JsonDoc × JsonDoc × JsonDoc) :=
  match schema with
  | JsonDoc.obj fields =>
    match fields.lookup "columns" with
    | none => Except.error (SchemaError.missingKey "columns")
    | some columns_info =>
      match fields.lookup "verb_exceptions" with
      | none => Except.error (SchemaError.missingKey "verb_exceptions")
      | some verb_exceptions =>
        match fields.lookup "irregular_verbs" with
        | none => Except.error (SchemaError.missingKey "irregular_verbs")
        | some irregular_verbs => Except.ok (columns_info, verb_exceptions, irregular_verbs)
  | _ => Except.error SchemaError.notAnObject

/-- Schema loading as `main` performs it: `load_schema` followed by
`create_batch_prompt_template`; both failures are fatal. -/
def loadSchemaPipeline (file : Option RawSchemaFile) :
    Except SchemaError (JsonDoc × JsonDoc × JsonDoc) :=
  match load_schema file with
  | Except.error e => Except.error e
  | Except.ok schema => create_batch_prompt_template schema

/-- Malformedness of a present schema file, stated after the spec's
words: the text is not a structured document, or the document is not an
object, or one of the three required top-level keys is missing. -/
def specSchemaMalformed (file : RawSchemaFile) : Bool :=
  match file with
  | RawSchemaFile.malformed => true
  | RawSchemaFile.parsed (JsonDoc.obj fields) =>
    (fields.lookup "columns").isNone || (fields.lookup "verb_exceptions").isNone ||
      (fields.lookup "irregular_verbs").isNone
  | RawSchemaFile.parsed _ => true

/-- C9: schema loading fails with the not-found error exactly when the
schema file is absent, and fails with a parse-class error (parse
failure, non-object document, or missing required key) exactly when the
file is present but malformed in the spec's sense. -/
theorem schema_loading_failure (file : Option RawSchemaFile) :
    (loadSchemaPipeline file = Except.error SchemaError.schemaNotFound ↔ file = none) ∧
    ((∃ e, loadSchemaPipeline file = Except.error e ∧ e ≠ SchemaError.schemaNotFound) ↔
      (∃ raw, file = some raw ∧ specSchemaMalformed raw = true)) := by
  cases file with
  | none => simp [loadSchemaPipeline, load_schema]
  | some raw =>
    cases raw with
    | malformed =>
      simp [loadSchemaPipeline, load_schema, specSchemaMalformed]
    | parsed doc =>
      cases doc with
      | obj fields =>
        simp only [loadSchemaPipeline, load_schema, create_batch_prompt_template,
          specSchemaMalformed]
        cases h1 : fields.lookup "columns" with
        | none => simp [h1]
        | some c =>
          cases h2 : fields.lookup "verb_exceptions" with
          | none => simp [h1, h2]
          | some v =>
            cases h3 : fields.lookup "irregular_verbs" with
            | none => simp [h1, h2, h3]
            | some irr => simp [h1, h2, h3]
      | arr items => simp [loadSchemaPipeline, load_schema, create_batch_prompt_template,
          specSchemaMalformed]
      | str s => simp [loadSchemaPipeline, load_schema, create_batch_prompt_template,
          specSchemaMalformed]
      | num n => simp [loadSchemaPipeline, load_schema, create_batch_prompt_template,
          specSchemaMalformed]
      | boolVal bv => simp [loadSchemaPipeline, load_schema, create_batch_prompt_template,
          specSchemaMalformed]
      | nullVal => simp [loadSchemaPipeline, load_schema, create_batch_prompt_template,
          specSchemaMalformed]

/-! Lesson-range expansion (`parse_lesson_arg`). -/

/-- Value of a big-endian digit string under the usual decimal
accumulator (the loop of Python `int`). -/
def digitsToNat (ds : List Char) : Nat :=
  ds.foldl (fun a c => a * 10 + (c.toNat - 48)) 0

/-- Little-endian decimal digits of a natural number, with explicit
fuel so the definition is structural. -/
def natDigitsRevFuel : Nat → Nat → List Char
  | 0, _ => []
  | fuel + 1, n =>
    if n < 10 then [Char.ofNat (48 + n)]
    else Char.ofNat (48 + n % 10) :: natDigitsRevFuel fuel (n / 10)

/-- Little-endian decimal digits of a natural number (`n + 1` is always
enough fuel). -/
def natDigitsRev (n : Nat) : List Char := natDigitsRevFuel (n + 1) n

/-- Python `str(n)` for a natural number. -/
def natDecStr (n : Nat) : String := String.mk (natDigitsRev n).reverse

/-- Python `str(i)` for an integer. -/
def intToStr (i : Int) : String :=
  if i < 0 then String.mk ('-' :: (natDigitsRev i.natAbs).reverse)
  else String.mk (natDigitsRev i.toNat).reverse

/-- Python `range(a, b + 1)` as a list of integers (`[a..b]`, empty
when `a > b`). -/
def intRangeIncl (a b : Int) : List Int :=
  if a ≤ b then (List.range (b - a + 1).toNat).map (fun i => a + Int.ofNat i) else []

/-- The digit phase of Python `int`: a nonempty all-digit string
evaluates to its decimal value, anything else is rejected. -/
def coreDigits (ds : List Char) : Option Nat :=
  if ds ≠ [] ∧ ds.all Char.isDigit then some (digitsToNat ds) else none

/-- Python `int(s)` on an optionally signed decimal literal: `none`
models the `ValueError`. -/
def parseIntStr (s : String) : Option Int :=
  match s.data with
  | [] => none
  | c :: rest =>
    if c = '+' then (coreDigits rest).map (fun m => (m : Int))
    else if c = '-' then (coreDigits rest).map (fun m => -(m : Int))
    else (coreDigits (c :: rest)).map (fun m => (m : Int))

/-- Python `s.split("-", 1)`: the text before the first hyphen and the
text after it. -/
def splitOnceOnHyphen (s : String) : String × String :=
  (String.mk (s.data.takeWhile (fun c => c != '-')),
   String.mk ((s.data.dropWhile (fun c => c != '-')).drop 1))

/-- Python `s.zfill(2)`: pad on the left with zeros to width two,
keeping a leading sign character in front of the padding. -/
def zfill2 (s : String) : String :=
  if 2 ≤ s.length then s
  else
    match s.data with
    | [] => String.mk (List.replicate 2 '0')
    | c :: rest =>
      if c = '+' ∨ c = '-' then
        String.mk (c :: (List.replicate (2 - s.length) '0' ++ rest))
      else String.mk (List.replicate (2 - s.length) '0' ++ s.data)

/-- `parse_lesson_arg`: a hyphenated argument is split once at the
hyphen, both bounds go through `int` (a failure propagates), and the
inclusive integer range is rendered with `str` and `zfill(2)`; an
argument without a hyphen is rendered with `zfill(2)` directly. -/
def parse_lesson_arg (lesson_arg : String) : Except String (List String) :=
  if '-' ∈ lesson_arg.data then
    match parseIntStr (splitOnceOnHyphen lesson_arg).1 with
    | none => Except.error "invalid literal for int"
    | some start_num =>
      match parseIntStr (splitOnceOnHyphen lesson_arg).2 with
      | none => Except.error "invalid literal for int"
      | some end_num =>
        Except.ok ((intRangeIncl start_num end_num).map (fun m => zfill2 (intToStr m)))
  else
    Except.ok [zfill2 lesson_arg]

/-- The ten decimal digit characters are digits and have the expected
code points. -/
theorem digit_char_spec : ∀ d : Nat, d < 10 →
    (Char.ofNat (48 + d)).isDigit = true ∧ (Char.ofNat (48 + d)).toNat = 48 + d := by
  decide

/-- Appending one digit multiplies the accumulated value by ten. -/
theorem digitsToNat_append_single (xs : List Char) (c : Char) :
    digitsToNat (xs ++ [c]) = digitsToNat xs * 10 + (c.toNat - 48) := by
  simp [digitsToNat, List.foldl_append]

/-- With enough fuel, the digit rendering of a natural number is a
nonempty all-digit string whose decimal value is the number itself. -/
theorem natDigitsRevFuel_spec :
    ∀ (fuel n : Nat), n < fuel →
      (natDigitsRevFuel fuel n ≠ [] ∧
       (∀ c ∈ natDigitsRevFuel fuel n, c.isDigit = true) ∧
       digitsToNat (natDigitsRevFuel fuel n).reverse = n) := by
  intro fuel
  induction fuel with
  | zero => intro n h; omega
  | succ fuel ih =>
    intro n h
    by_cases h10 : n < 10
    · simp only [natDigitsRevFuel, if_pos h10]
      refine ⟨by simp, ?_, ?_⟩
      · intro c hc
        simp only [List.mem_singleton] at hc
        subst hc
        exact (digit_char_spec n h10).1
      · have hdc := (digit_char_spec n h10).2
        simp [digitsToNat, hdc]
    · have hdiv : n / 10 < fuel := by
        have hlt : n / 10 < n := Nat.div_lt_self (by omega) (by omega)
        omega
      obtain ⟨hne, hdig, hval⟩ := ih (n / 10) hdiv
      simp only [natDigitsRevFuel, if_neg h10]
      refine ⟨by simp, ?_, ?_⟩
      · intro c hc
        rcases List.mem_cons.mp hc with rfl | hc2
        · exact (digit_char_spec (n % 10) (Nat.mod_lt n (by omega))).1
        · exact hdig c hc2
      · rw [List.reverse_cons, digitsToNat_append_single, hval,
          (digit_char_spec (n % 10) (Nat.mod_lt n (by omega))).2]
        omega

/-- The digit rendering of a natural number is nonempty, all digits,
and evaluates back to the number. -/
theorem natDigitsRev_spec (n : Nat) :
    natDigitsRev n ≠ [] ∧ (∀ c ∈ natDigitsRev n, c.isDigit = true) ∧
    digitsToNat (natDigitsRev n).reverse = n :=
  natDigitsRevFuel_spec (n + 1) n (Nat.lt_succ_self n)

/-- A digit character is not a sign character and not a hyphen. -/
theorem isDigit_not_sign {c : Char} (h : c.isDigit = true) :
    c ≠ '+' ∧ c ≠ '-' := by
  constructor <;> intro heq <;> subst heq <;> simp at h

/-- `str(n)` never contains a hyphen. -/
theorem natDecStr_no_hyphen (n : Nat) : '-' ∉ (natDecStr n).data := by
  intro hmem
  have hmem2 : '-' ∈ natDigitsRev n := by
    have : (natDecStr n).data = (natDigitsRev n).reverse := rfl
    rw [this, List.mem_reverse] at hmem
    exact hmem
  have hdig := (natDigitsRev_spec n).2.1 '-' hmem2
  simp at hdig

/-- `int(str(n)) = n`: the decimal round trip. -/
theorem parseIntStr_natDecStr (n : Nat) : parseIntStr (natDecStr n) = some (n : Int) := by
  obtain ⟨hne, hdig, hval⟩ := natDigitsRev_spec n
  obtain ⟨c, cs, hcons⟩ : ∃ c cs, (natDigitsRev n).reverse = c :: cs := by
    cases hrev : (natDigitsRev n).reverse with
    | nil =>
      rw [List.reverse_eq_nil_iff] at hrev
      exact absurd hrev hne
    | cons c cs => exact ⟨c, cs, rfl⟩
  have hdigrev : ∀ c2 ∈ (natDigitsRev n).reverse, c2.isDigit = true := by
    intro c2 hc2
    exact hdig c2 (List.mem_reverse.mp hc2)
  have hcdig : c.isDigit = true := hdigrev c (by rw [hcons]; simp)
  have hdata : (natDecStr n).data = c :: cs := hcons
  unfold parseIntStr
  rw [hdata]
  show (if c = '+' then (coreDigits cs).map (fun m => (m : Int))
    else if c = '-' then (coreDigits cs).map (fun m => -(m : Int))
    else (coreDigits (c :: cs)).map (fun m => (m : Int))) = some (n : Int)
  rw [if_neg (isDigit_not_sign hcdig).1, if_neg (isDigit_not_sign hcdig).2]
  have hcore : coreDigits (c :: cs) = some (digitsToNat (c :: cs)) := by
    unfold coreDigits
    rw [if_pos]
    refine ⟨by simp, ?_⟩
    rw [List.all_eq_true]
    intro x hx
    exact hdigrev x (by rw [hcons]; exact hx)
  rw [hcore, ← hcons, hval]
  rfl

/-- Splitting a hyphen-free text, a hyphen and a tail at the first
hyphen recovers the two parts (list level). -/
theorem takeWhile_no_hyphen (xs : List Char) :
    ∀ ys : List Char, (∀ c ∈ xs, c ≠ '-') →
      ((xs ++ '-' :: ys).takeWhile (fun c => c != '-') = xs ∧
       (xs ++ '-' :: ys).dropWhile (fun c => c != '-') = '-' :: ys) := by
  induction xs with
  | nil =>
    intro ys h
    constructor
    · simp [List.takeWhile_cons]
    · simp [List.dropWhile_cons]
  | cons c cs ih =>
    intro ys h
    have hc : c ≠ '-' := h c (by simp)
    obtain ⟨h1, h2⟩ := ih ys (fun d hd => h d (by simp [hd]))
    constructor
    · simp only [List.cons_append, List.takeWhile_cons]
      simp [hc, h1]
    · simp only [List.cons_append, List.dropWhile_cons]
      simp [hc, h2]

/-- `split("-", 1)` on a text assembled from a hyphen-free head, a
hyphen and a tail recovers the head and the tail. -/
theorem splitOnceOnHyphen_append (x y : String) (hx : '-' ∉ x.data) :
    splitOnceOnHyphen (x ++ "-" ++ y) = (x, y) := by
  have hdata : (x ++ "-" ++ y).data = x.data ++ '-' :: y.data := by
    show (x.data ++ ['-']) ++ y.data = x.data ++ '-' :: y.data
    rw [List.append_assoc]
    rfl
  unfold splitOnceOnHyphen
  rw [hdata]
  obtain ⟨ht, hd⟩ := takeWhile_no_hyphen x.data y.data (fun c hc heq => hx (heq ▸ hc))
  rw [ht, hd]
  rfl

/-- The rendered inclusive integer range over natural bounds is the
padded decimal strings of `a, a+1, ..., b` in ascending order (the
empty list when `a > b`). -/
theorem intRangeIncl_natCast (a b : Nat) :
    (intRangeIncl (a : Int) (b : Int)).map (fun m => zfill2 (intToStr m)) =
      (List.range' a (b + 1 - a)).map (fun m => zfill2 (natDecStr m)) := by
  unfold intRangeIncl
  by_cases hab : (a : Int) ≤ (b : Int)
  · rw [if_pos hab]
    have hlen : ((b : Int) - (a : Int) + 1).toNat = b + 1 - a := by omega
    rw [hlen, List.range'_eq_map_range, List.map_map, List.map_map]
    apply List.map_congr_left
    intro i hi
    simp only [Function.comp_apply]
    congr 1
  · rw [if_neg hab]
    have hz : b + 1 - a = 0 := by omega
    rw [hz]
    simp

/-- Range expansion over actual decimal bound strings: the expander
applied to `str(a) ++ "-" ++ str(b)` yields the padded decimals of the
integers from `a` to `b` inclusive, ascending; empty when `a > b`. -/
theorem parse_range_general (a b : Nat) :
    parse_lesson_arg (natDecStr a ++ "-" ++ natDecStr b) =
      Except.ok ((List.range' a (b + 1 - a)).map (fun m => zfill2 (natDecStr m))) := by
  have hdata : (natDecStr a ++ "-" ++ natDecStr b).data =
      (natDecStr a).data ++ '-' :: (natDecStr b).data := by
    show ((natDecStr a).data ++ ['-']) ++ (natDecStr b).data =
      (natDecStr a).data ++ '-' :: (natDecStr b).data
    rw [List.append_assoc]
    rfl
  have hmem : '-' ∈ (natDecStr a ++ "-" ++ natDecStr b).data := by
    rw [hdata]
    simp
  have hsplit := splitOnceOnHyphen_append (natDecStr a) (natDecStr b) (natDecStr_no_hyphen a)
  unfold parse_lesson_arg
  rw [if_pos hmem, hsplit]
  show (match parseIntStr (natDecStr a) with
    | none => Except.error "invalid literal for int"
    | some start_num =>
      match parseIntStr (natDecStr b) with
      | none => Except.error "invalid literal for int"
      | some end_num =>
        Except.ok ((intRangeIncl start_num end_num).map (fun m => zfill2 (intToStr m)))) = _
  rw [parseIntStr_natDecStr a, parseIntStr_natDecStr b]
  show Except.ok ((intRangeIncl (a : Int) (b : Int)).map (fun m => zfill2 (intToStr m))) = _
  rw [intRangeIncl_natCast]

/-- A hyphenated argument with an unparseable bound is rejected. -/
theorem parse_range_bad_bound (s : String) (hmem : '-' ∈ s.data)
    (h : parseIntStr (splitOnceOnHyphen s).1 = none ∨
      parseIntStr (splitOnceOnHyphen s).2 = none) :
    ∃ msg, parse_lesson_arg s = Except.error msg := by
  unfold parse_lesson_arg
  rw [if_pos hmem]
  rcases h with h1 | h2
  · rw [h1]
    exact ⟨_, rfl⟩
  · cases hh : parseIntStr (splitOnceOnHyphen s).1 with
    | none => exact ⟨_, rfl⟩
    | some v =>
      rw [h2]
      exact ⟨_, rfl⟩

/-- An argument without a hyphen is padded directly. -/
theorem parse_no_hyphen (s : String) (h : '-' ∉ s.data) :
    parse_lesson_arg s = Except.ok [zfill2 s] := by
  unfold parse_lesson_arg
  rw [if_neg h]

/-- C4 counterexample: the expander applied to the reversed range
"5-3" succeeds with the empty list — it does not fail, contradicting
the claimed range error. -/
theorem lesson_range_reversed_cex : parse_lesson_arg "5-3" = Except.ok [] := rfl

/-- C4 amended: for a hyphenated argument built from decimal bounds A
and B the expander returns every integer of [A, B] zero-padded in
ascending order, which for A > B is the empty list rather than an
error; an argument without a hyphen is returned zero-padded as a single
value; a hyphenated argument with an unparseable bound fails; and in
particular "1-3" expands to 01,02,03, "01" to itself, "5-3" to the
empty list. -/
theorem lesson_range_expansion :
    (∀ a b : Nat, parse_lesson_arg (natDecStr a ++ "-" ++ natDecStr b) =
      Except.ok ((List.range' a (b + 1 - a)).map (fun m => zfill2 (natDecStr m)))) ∧
    (∀ s : String, '-' ∉ s.data → parse_lesson_arg s = Except.ok [zfill2 s]) ∧
    (∀ s : String, '-' ∈ s.data →
      (parseIntStr (splitOnceOnHyphen s).1 = none ∨
        parseIntStr (splitOnceOnHyphen s).2 = none) →
      ∃ msg, parse_lesson_arg s = Except.error msg) ∧
    parse_lesson_arg "1-3" = Except.ok ["01", "02", "03"] ∧
    parse_lesson_arg "01" = Except.ok ["01"] ∧
    parse_lesson_arg "5-3" = Except.ok [] :=
  ⟨parse_range_general, parse_no_hyphen, parse_range_bad_bound, rfl, rfl, rfl⟩

/-- C4 amended witness: the expansion theorem applied to the concrete
inputs "2-4" (via its numeric-bounds clause), "7" (no hyphen) and "a-3"
(non-numeric bound). -/
theorem lesson_range_expansion_witness :
    (parse_lesson_arg (natDecStr 2 ++ "-" ++ natDecStr 4) =
      Except.ok ((List.range' 2 (4 + 1 - 2)).map (fun m => zfill2 (natDecStr m)))) ∧
    ('-' ∉ "7".data ∧ parse_lesson_arg "7" = Except.ok [zfill2 "7"]) ∧
    ('-' ∈ "a-3".data ∧ parseIntStr (splitOnceOnHyphen "a-3").1 = none ∧
      (∃ msg, parse_lesson_arg "a-3" = Except.error msg)) :=
  ⟨lesson_range_expansion.1 2 4,
   ⟨by decide, lesson_range_expansion.2.1 "7" (by decide)⟩,
   ⟨by decide, rfl, lesson_range_expansion.2.2.1 "a-3" (by decide) (Or.inl rfl)⟩⟩
